import Mathlib

/-!
Shallow embedding of `src/main.py` (word-guess-game): the frequency-ranking
pipeline (`make_dict`), the first-20 lemma/tag report loop of `preprocess`,
and the interactive guessing game (`guessing_game`).

Conventions of the embedding:
* Python strings are Lean `String`; `str.lower()` and `str.isalpha()` are
  modelled over the ASCII range (`Char.toLower` / `Char.isAlpha`), which
  agrees with Python on all inputs relevant here.
* The Python `dict` (insertion-ordered in CPython 3.7+) is an association
  list `List (String × Nat)` whose key order is insertion order.
* Console input is an explicit list of strings consumed in order; the random
  choices of `random.choice` are an explicit list of natural numbers, one per
  round, mapped into the vocabulary by index (mod length).  Running out of
  either scripted list is a model artifact reported by a dedicated outcome
  constructor, distinct from every real program outcome.
* An uncaught Python exception (IndexError) is modelled as an error value
  (`none` / `configError`).
-/

namespace WordGuess

/-! ## Frequency Ranker (`make_dict`, src/main.py lines 120-150) -/

/-- `for noun in noun_list: noun_dict[noun] = 0` — seeding the dict.
Assigning `0` to a key that is already present leaves the association list
unchanged (its value is already `0` and dict assignment keeps the original
key position), so a duplicate noun is a no-op. -/
def seed (noun_list : List String) : List (String × Nat) :=
  noun_list.foldl
    (fun d k => if d.any (fun p => p.1 == k) then d else d ++ [(k, 0)]) []

/-- `if token in noun_dict: noun_dict[token] += 1` — one token of the
counting scan. -/
def bump (d : List (String × Nat)) (t : String) : List (String × Nat) :=
  if d.any (fun p => p.1 == t) then
    d.map (fun p => if p.1 == t then (p.1, p.2 + 1) else p)
  else d

/-- The fully counted noun dictionary: seed from `noun_list`, then scan the
token stream in order. -/
def noun_dict (tokens noun_list : List String) : List (String × Nat) :=
  tokens.foldl bump (seed noun_list)

/-- `noun_dict[k]` as a partial lookup (first entry with the key). -/
def dlookup (d : List (String × Nat)) (k : String) : Option Nat :=
  (d.find? (fun p => p.1 == k)).map (fun p => p.2)

/-- The comparison used to realise `np.argsort` on the value list:
ascending by value, with index order deciding equal values.  NumPy's
default sort is deterministic but documented unstable above its small-array
insertion-sort path, so the order of equal values there is
implementation-defined; this comparator picks one concrete deterministic
order on ties.  Only value-order facts (where ties play no role) and
concrete small inputs on the insertion-sort path are read off this model as
facts about the program. -/
def argKey (vals : List Nat) (a b : Nat) : Bool :=
  decide (vals.getD a 0 < vals.getD b 0) ||
    (vals.getD a 0 == vals.getD b 0 && decide (a ≤ b))

/-- `np.argsort(list(noun_dict.values()))`: an index permutation sorting the
value list ascending.  Realised as insertion sort with `argKey` — a
deterministic correct argsort that coincides with NumPy exactly on the
small-array path (where NumPy itself runs insertion sort) and, on larger
inputs, in everything that does not depend on the relative order of equal
values. -/
def argsortAsc (vals : List Nat) : List Nat :=
  (List.range vals.length).insertionSort (fun a b => argKey vals a b = true)

/-- `make_dict(tokens, noun_list)` (printing dropped): build the counted
dict, argsort its values, reverse (`[::-1]`), rebuild the dict in that key
order and keep the first 50 keys. -/
def make_dict (tokens noun_list : List String) : List String :=
  let d := noun_dict tokens noun_list
  let keys := d.map (fun p => p.1)
  let vals := d.map (fun p => p.2)
  let sorted_value_index := (argsortAsc vals).reverse
  (sorted_value_index.map (fun i => keys.getD i "")).take 50

/-! ## The first-20 report loop (`preprocess`, src/main.py lines 104-106) -/

/-- `for i in range(20): print("Lemma :", tags_list[i][0], ...)`: the loop
body reads `tags_list[i]` unconditionally; the model returns the sequence of
accessed entries, or `none` when some access is out of range (the IndexError
the real loop raises). -/
def printFirst20 (tags_list : List (String × String)) :
    Option (List (String × String)) :=
  (List.range 20).mapM (fun i => tags_list.get? i)

/-! ## Guessing game state (`guessing_game`, src/main.py lines 153-216) -/

/-- `input(...).lower()` over the ASCII range. -/
def strLower (s : String) : String :=
  String.mk (s.data.map Char.toLower)

/-- Python `str.isalpha()`: non-empty and every character alphabetic. -/
def pyIsAlpha (s : String) : Bool :=
  !s.data.isEmpty && s.data.all Char.isAlpha

/-- `word_letters = list(word)`: the word as a list of one-character
strings. -/
def wordLetters (w : String) : List String :=
  w.data.map (fun c => String.mk [c])

/-- The per-round mutable state of the inner loop, together with the
session score it reads and writes. -/
structure GameState where
  word : List String
  guessed : List String
  hidden : List String
  score : Int
  deriving DecidableEq, Repr

/-- Round initialisation (lines 164-169): fresh mask of `"_ "` placeholders,
empty guessed set, score carried in from the session. -/
def initRound (w : String) (score : Int) : GameState :=
  { word := wordLetters w
    guessed := []
    hidden := (wordLetters w).map (fun _ => "_ ")
    score := score }

/-- The reveal loop (lines 193-195): `hidden_word[i] = guess` at every `i`
with `word_letters[i] == guess`. -/
def reveal (word hidden : List String) (guess : String) : List String :=
  List.zipWith (fun w h => if w == guess then guess else h) word hidden

/-- Outcome of processing one line of input inside the guess loop. -/
inductive StepResult where
  | quit
  | reject (s : GameState)
  | step (s : GameState)
  deriving DecidableEq, Repr

/-- One iteration of the inner loop body (lines 175-200) on input `g`:
quit sentinel, validation (malformed / duplicate → `continue`, state
untouched), otherwise record the guess and score it. -/
def guessStep (s : GameState) (g : String) : StepResult :=
  let guess := strLower g
  if guess == "!" then .quit
  else if guess.data.length != 1 || !pyIsAlpha guess then .reject s
  else if guess ∈ s.guessed then .reject s
  else
    let s1 : GameState := { s with guessed := s.guessed ++ [guess] }
    if guess ∈ s.word then
      .step { s1 with hidden := reveal s1.word s1.hidden guess,
                      score := s1.score + 1 }
    else
      .step { s1 with score := s1.score - 1 }

/-- How a round ended. `noInput` is the model artifact for running out of
scripted console input while the loop would keep prompting. -/
inductive RoundRes where
  | solved
  | exhausted
  | quitG
  | noInput
  deriving DecidableEq, Repr

/-- Result of running a round: how it ended, the final state, the unread
input, and the consumed guess prompts in order. -/
structure RoundRun where
  res : RoundRes
  state : GameState
  rem : List String
  events : List String
  deriving DecidableEq, Repr

/-- The inner `while hidden_word != word_letters and total_score > 0` loop
(lines 171-200) plus the post-loop solved/exhausted decision (lines
203-207): the two loop conditions are re-checked before each prompt, and on
exit the solved test is decided first. `events` records each consumed guess
input. -/
def runRound : GameState → List String → RoundRun
  | s, [] =>
    if s.hidden = s.word then ⟨.solved, s, [], []⟩
    else if s.score ≤ 0 then ⟨.exhausted, s, [], []⟩
    else ⟨.noInput, s, [], []⟩
  | s, g :: rest =>
    if s.hidden = s.word then ⟨.solved, s, g :: rest, []⟩
    else if s.score ≤ 0 then ⟨.exhausted, s, g :: rest, []⟩
    else
      match guessStep s g with
      | .quit => ⟨.quitG, s, rest, [g]⟩
      | .reject s1 =>
        let r := runRound s1 rest
        ⟨r.res, r.state, r.rem, g :: r.events⟩
      | .step s1 =>
        let r := runRound s1 rest
        ⟨r.res, r.state, r.rem, g :: r.events⟩

/-- Observable console interaction points of a session, in order. -/
inductive Event where
  | guessPrompt (g : String)
  | roundSolved
  | roundExhausted
  | contPrompt
  | farewell
  deriving DecidableEq, Repr

/-- Session result: the final `Thanks for playing!` (`ok`), the IndexError
of `random.choice` on an empty vocabulary (`configError`), or a model
artifact for an exhausted scripted pick/input list. -/
inductive SessionOut where
  | ok (events : List Event) (finalScore : Int)
  | configError (events : List Event)
  | noMorePicks (events : List Event)
  | noMoreInput (events : List Event)
  deriving DecidableEq, Repr

/-- The event trace of a session outcome. -/
def eventsOf : SessionOut → List Event
  | .ok es _ => es
  | .configError es => es
  | .noMorePicks es => es
  | .noMoreInput es => es

/-- Prefix a trace onto a session outcome. -/
def prependEvents (es : List Event) : SessionOut → SessionOut
  | .ok es2 sc => .ok (es ++ es2) sc
  | .configError es2 => .configError (es ++ es2)
  | .noMorePicks es2 => .noMorePicks (es ++ es2)
  | .noMoreInput es2 => .noMoreInput (es ++ es2)

/-- `random.choice(l)` driven by an injected natural number: an index into
`l` (mod its length).  On an empty list the call raises IndexError,
modelled as `none`. -/
def randomChoice (l : List String) (k : Nat) : Option String :=
  l.get? (k % l.length)

/-- Round events as `Event`s. -/
def roundEvents (rr : RoundRun) : List Event :=
  rr.events.map (fun g => Event.guessPrompt g)

/-- The outer `while total_score > 0` session loop (lines 163-216), one
scripted random pick per round: pick a word (IndexError on empty vocabulary
→ `configError`), run the round, then the post-round sequence — solved or
exhausted report, score display, and if the score is still positive the
continuation prompt, whose answer other than `y` breaks the loop. -/
def runSession (vocab : List String) : List Nat → List String → Int → SessionOut
  | [], _, score =>
    if score ≤ 0 then .ok [.farewell] score else .noMorePicks []
  | k :: ks, inputs, score =>
    if score ≤ 0 then .ok [.farewell] score
    else
      match randomChoice vocab k with
      | none => .configError []
      | some w =>
        let rr := runRound (initRound w score) inputs
        match rr.res with
        | .quitG => .ok (roundEvents rr ++ [.farewell]) rr.state.score
        | .noInput => .noMoreInput (roundEvents rr)
        | .solved =>
          let es := roundEvents rr ++ [.roundSolved]
          if rr.state.score ≤ 0 then .ok (es ++ [.farewell]) rr.state.score
          else
            match rr.rem with
            | [] => .noMoreInput (es ++ [.contPrompt])
            | a :: rest =>
              if strLower a == "y" then
                prependEvents (es ++ [.contPrompt])
                  (runSession vocab ks rest rr.state.score)
              else .ok (es ++ [.contPrompt, .farewell]) rr.state.score
        | .exhausted =>
          let es := roundEvents rr ++ [.roundExhausted]
          if rr.state.score ≤ 0 then .ok (es ++ [.farewell]) rr.state.score
          else
            match rr.rem with
            | [] => .noMoreInput (es ++ [.contPrompt])
            | a :: rest =>
              if strLower a == "y" then
                prependEvents (es ++ [.contPrompt])
                  (runSession vocab ks rest rr.state.score)
              else .ok (es ++ [.contPrompt, .farewell]) rr.state.score

/-- `guessing_game(most_common_words)`: the session started at score 5
(line 161). -/
def guessing_game (most_common_words : List String) (picks : List Nat)
    (inputs : List String) : SessionOut :=
  runSession most_common_words picks inputs 5

/-- Applying one inner-loop iteration and keeping the state (identity on
quit or rejection): used to read off the score trajectory of a scripted
guess sequence. -/
def applyGuess (s : GameState) (g : String) : GameState :=
  match guessStep s g with
  | .step s1 => s1
  | _ => s

/-- The scores printed along a guess sequence: the score before the first
guess, then the score after each successive guess. -/
def scorePath (s : GameState) : List String → List Int
  | [] => [s.score]
  | g :: rest => s.score :: scorePath (applyGuess s g) rest

/-- Reachability inside one round: the states the inner loop can be in,
starting from a given state, through guesses the loop actually accepts
(the loop only evaluates a guess while the word is unsolved and the score
is positive; rejected guesses do not change the state). -/
inductive Steps : GameState → GameState → Prop
  | refl (s : GameState) : Steps s s
  | tail {s t u : GameState} (g : String) : Steps s t → t.hidden ≠ t.word →
      0 < t.score → guessStep t g = .step u → Steps s u

/-- Scanner: every `roundExhausted` in the trace is immediately and only
followed by the final farewell — the session neither prompts for another
guess nor for another round after a round ends exhausted. -/
def exhaustedEnds : List Event → Bool
  | [] => true
  | .roundExhausted :: rest =>
    match rest with
    | [.farewell] => true
    | _ => false
  | _ :: rest => exhaustedEnds rest

/-- Scanner: every `roundSolved` in the trace is immediately followed by
the play-another-round continuation prompt. -/
def solvedThenCont : List Event → Bool
  | [] => true
  | .roundSolved :: rest =>
    match rest with
    | .contPrompt :: _ => solvedThenCont rest
    | _ => false
  | _ :: rest => solvedThenCont rest

/-- The insertion-ordered key list of the noun dictionary (the order the
Vocabulary Extractor's nouns were first inserted). -/
def dictKeys (noun_list : List String) : List String :=
  (seed noun_list).map (fun p => p.1)

/-- The post-round tail of the session loop body (lines 203-214): report the
round, then prompt for another round only while the score is positive; the
`runSession` body for a successfully picked word is exactly
`postRound` applied to the finished round. -/
def postRound (vocab : List String) (ks : List Nat) (rr : RoundRun) :
    SessionOut :=
  match rr.res with
  | .quitG => .ok (roundEvents rr ++ [.farewell]) rr.state.score
  | .noInput => .noMoreInput (roundEvents rr)
  | .solved =>
    let es := roundEvents rr ++ [.roundSolved]
    if rr.state.score ≤ 0 then .ok (es ++ [.farewell]) rr.state.score
    else
      match rr.rem with
      | [] => .noMoreInput (es ++ [.contPrompt])
      | a :: rest =>
        if strLower a == "y" then
          prependEvents (es ++ [.contPrompt])
            (runSession vocab ks rest rr.state.score)
        else .ok (es ++ [.contPrompt, .farewell]) rr.state.score
  | .exhausted =>
    let es := roundEvents rr ++ [.roundExhausted]
    if rr.state.score ≤ 0 then .ok (es ++ [.farewell]) rr.state.score
    else
      match rr.rem with
      | [] => .noMoreInput (es ++ [.contPrompt])
      | a :: rest =>
        if strLower a == "y" then
          prependEvents (es ++ [.contPrompt])
            (runSession vocab ks rest rr.state.score)
        else .ok (es ++ [.contPrompt, .farewell]) rr.state.score

/-- The per-round mask invariant: the mask has the word's length, and every
revealed cell holds exactly the word's letter at that position. -/
def MaskInv (s : GameState) : Prop :=
  s.hidden.length = s.word.length ∧
    ∀ (i : Nat) (x : String),
      s.hidden[i]? = some x → x ≠ "_ " → s.word[i]? = some x

/-! ## Dictionary lemmas -/

lemma seed_val_zero (noun_list : List String) :
    ∀ p ∈ seed noun_list, p.2 = 0 := by
  suffices h : ∀ (l : List String) (d : List (String × Nat)),
      (∀ p ∈ d, p.2 = 0) →
      ∀ p ∈ l.foldl
        (fun d k => if d.any (fun p => p.1 == k) then d else d ++ [(k, 0)]) d,
        p.2 = 0 by
    exact h noun_list [] (by simp)
  intro l
  induction l with
  | nil => intro d hd; simpa using hd
  | cons k rest ih =>
    intro d hd
    simp only [List.foldl_cons]
    apply ih
    split
    · exact hd
    · intro p hp
      rcases List.mem_append.mp hp with h1 | h1
      · exact hd p h1
      · simp only [List.mem_singleton] at h1
        subst h1; rfl

lemma seed_keys_nodup (noun_list : List String) :
    (dictKeys noun_list).Nodup := by
  suffices h : ∀ (l : List String) (d : List (String × Nat)),
      (d.map (fun p => p.1)).Nodup →
      ((l.foldl
        (fun d k => if d.any (fun p => p.1 == k) then d else d ++ [(k, 0)]) d).map
          (fun p => p.1)).Nodup by
    exact h noun_list [] (by simp)
  intro l
  induction l with
  | nil => intro d hd; simpa using hd
  | cons k rest ih =>
    intro d hd
    simp only [List.foldl_cons]
    apply ih
    split
    · exact hd
    · next hany =>
      rw [List.map_append]
      rw [List.nodup_append]
      refine ⟨hd, by simp, ?_⟩
      intro a ha hb
      simp only [List.map_cons, List.map_nil, List.mem_singleton] at hb
      subst hb
      rcases List.mem_map.mp ha with ⟨p, hp, hpk⟩
      exact hany (List.any_eq_true.mpr ⟨p, hp, by simp [hpk]⟩)

lemma bump_fst (t : String) (p : String × Nat) :
    (if p.1 == t then (p.1, p.2 + 1) else p).1 = p.1 := by
  split <;> rfl

lemma bump_keys (d : List (String × Nat)) (t : String) :
    (bump d t).map (fun p => p.1) = d.map (fun p => p.1) := by
  unfold bump
  split
  · rw [List.map_map]
    exact List.map_congr_left fun p _ => bump_fst t p
  · rfl

lemma foldl_bump_keys (tokens : List String) (d : List (String × Nat)) :
    (tokens.foldl bump d).map (fun p => p.1) = d.map (fun p => p.1) := by
  induction tokens generalizing d with
  | nil => rfl
  | cons t ts ih => rw [List.foldl_cons, ih, bump_keys]

lemma noun_dict_keys (tokens noun_list : List String) :
    (noun_dict tokens noun_list).map (fun p => p.1) = dictKeys noun_list :=
  foldl_bump_keys tokens (seed noun_list)

lemma dlookup_bump (d : List (String × Nat)) (t k : String) :
    dlookup (bump d t) k =
      if k = t then (dlookup d k).map (fun v => v + 1) else dlookup d k := by
  unfold bump dlookup
  split
  · next hany =>
    rw [List.find?_map]
    have hcomp : ((fun p : String × Nat => p.1 == k) ∘
        fun p : String × Nat => if p.1 == t then (p.1, p.2 + 1) else p) =
        fun p : String × Nat => p.1 == k := by
      funext p
      simp only [Function.comp_apply, bump_fst]
    rw [hcomp]
    cases hf : d.find? (fun p => p.1 == k) with
    | none => simp
    | some q =>
      have hqk : q.1 = k := by simpa using List.find?_some hf
      by_cases hkt : k = t
      · subst hkt
        simp [hqk]
      · have hne : q.1 ≠ t := by rw [hqk]; exact hkt
        simp [hkt, hne]
  · next hany =>
    by_cases hkt : k = t
    · subst hkt
      have hnone : d.find? (fun p => p.1 == k) = none := by
        rw [List.find?_eq_none]
        intro p hp hpk
        exact hany (List.any_eq_true.mpr ⟨p, hp, hpk⟩)
      simp [hnone]
    · simp [hkt]

lemma dlookup_foldl (tokens : List String) (d : List (String × Nat))
    (k : String) :
    dlookup (tokens.foldl bump d) k =
      (dlookup d k).map (fun v => v + List.count k tokens) := by
  induction tokens generalizing d with
  | nil =>
    simp only [List.foldl_nil, List.count_nil]
    cases dlookup d k <;> simp
  | cons t ts ih =>
    rw [List.foldl_cons, ih, dlookup_bump]
    by_cases hkt : k = t
    · subst hkt
      rw [if_pos rfl, List.count_cons]
      cases dlookup d k with
      | none => simp
      | some v =>
        simp only [Option.map_some', Option.some.injEq, beq_self_eq_true,
          if_true]
        omega
    · rw [if_neg hkt, List.count_cons]
      have hne : (t == k) = false := beq_eq_false_iff_ne.mpr fun h => hkt h.symm
      simp [hne]

lemma dlookup_seed (noun_list : List String) (k : String)
    (hk : k ∈ dictKeys noun_list) : dlookup (seed noun_list) k = some 0 := by
  rcases List.mem_map.mp hk with ⟨p, hp, hpk⟩
  have hsome : ((seed noun_list).find? (fun p => p.1 == k)).isSome := by
    rw [List.find?_isSome]
    exact ⟨p, hp, by simp [hpk]⟩
  rcases Option.isSome_iff_exists.mp hsome with ⟨q, hq⟩
  have hq0 : q.2 = 0 := seed_val_zero noun_list q (List.mem_of_find?_eq_some hq)
  unfold dlookup
  rw [hq]
  simp [hq0]

lemma dlookup_noun_dict (tokens noun_list : List String) (k : String)
    (hk : k ∈ dictKeys noun_list) :
    dlookup (noun_dict tokens noun_list) k = some (List.count k tokens) := by
  unfold noun_dict
  rw [dlookup_foldl, dlookup_seed noun_list k hk]
  simp

lemma find?_get_of_nodup (d : List (String × Nat))
    (hd : (d.map (fun p => p.1)).Nodup) (p : Nat) (hp : p < d.length) :
    d.find? (fun q => q.1 == (d.get ⟨p, hp⟩).1) = some (d.get ⟨p, hp⟩) := by
  induction d generalizing p with
  | nil => exact absurd hp (by simp)
  | cons a d ih =>
    cases p with
    | zero => simp [List.find?]
    | succ p =>
      have hp2 : p < d.length := Nat.lt_of_succ_lt_succ hp
      have hget : (a :: d).get ⟨p + 1, hp⟩ = d.get ⟨p, hp2⟩ := rfl
      have hmem : (d.get ⟨p, hp2⟩).1 ∈ d.map (fun q => q.1) :=
        List.mem_map_of_mem _ (List.get_mem d p hp2)
      have hnd : a.1 ∉ d.map (fun q => q.1) ∧
          (d.map (fun q => q.1)).Nodup := by
        rw [List.map_cons, List.nodup_cons] at hd
        exact hd
      have hne : (a.1 == (d.get ⟨p, hp2⟩).1) = false :=
        beq_eq_false_iff_ne.mpr fun h => hnd.1 (h ▸ hmem)
      rw [hget]
      simp only [List.find?]
      rw [hne]
      exact ih hnd.2 p hp2

lemma noun_dict_val_at (tokens noun_list : List String) (p : Nat)
    (hp : p < (noun_dict tokens noun_list).length) :
    ((noun_dict tokens noun_list).get ⟨p, hp⟩).2 =
      List.count ((noun_dict tokens noun_list).get ⟨p, hp⟩).1 tokens := by
  have hnd : ((noun_dict tokens noun_list).map (fun q => q.1)).Nodup := by
    rw [noun_dict_keys]; exact seed_keys_nodup noun_list
  have hmem : ((noun_dict tokens noun_list).get ⟨p, hp⟩).1 ∈
      dictKeys noun_list := by
    rw [← noun_dict_keys tokens noun_list]
    exact List.mem_map_of_mem _ (List.get_mem _ p hp)
  have h1 := dlookup_noun_dict tokens noun_list _ hmem
  have h2 : dlookup (noun_dict tokens noun_list)
      (((noun_dict tokens noun_list).get ⟨p, hp⟩).1) =
      some (((noun_dict tokens noun_list).get ⟨p, hp⟩).2) := by
    unfold dlookup
    rw [find?_get_of_nodup _ hnd p hp]
    rfl
  exact Option.some.inj (h2.symm.trans h1)

/-! ## Argsort lemmas -/

lemma argKey_trans (vals : List Nat) (a b c : Nat)
    (hab : argKey vals a b = true) (hbc : argKey vals b c = true) :
    argKey vals a c = true := by
  simp only [argKey, Bool.or_eq_true, Bool.and_eq_true, decide_eq_true_eq,
    beq_iff_eq] at hab hbc ⊢
  omega

lemma argKey_total (vals : List Nat) (a b : Nat) :
    argKey vals a b = true ∨ argKey vals b a = true := by
  simp only [argKey, Bool.or_eq_true, Bool.and_eq_true, decide_eq_true_eq,
    beq_iff_eq]
  omega

lemma argsortAsc_sorted (vals : List Nat) :
    (argsortAsc vals).Pairwise (fun a b => argKey vals a b = true) := by
  haveI : IsTrans Nat (fun a b => argKey vals a b = true) :=
    ⟨argKey_trans vals⟩
  haveI : IsTotal Nat (fun a b => argKey vals a b = true) :=
    ⟨argKey_total vals⟩
  exact List.sorted_insertionSort _ _

lemma argsortAsc_perm (vals : List Nat) :
    (argsortAsc vals).Perm (List.range vals.length) :=
  List.perm_insertionSort _ _

lemma argsortAsc_nodup (vals : List Nat) : (argsortAsc vals).Nodup :=
  ((argsortAsc_perm vals).symm).nodup (List.nodup_range _)

lemma argsortAsc_mem (vals : List Nat) (a : Nat) (h : a ∈ argsortAsc vals) :
    a < vals.length :=
  List.mem_range.mp ((argsortAsc_perm vals).mem_iff.mp h)

lemma make_dict_take_map (tokens noun_list : List String) :
    make_dict tokens noun_list =
      ((argsortAsc ((noun_dict tokens noun_list).map
          (fun r => r.2))).reverse.take 50).map
        (fun x => ((noun_dict tokens noun_list).map (fun r => r.1)).getD x "") := by
  unfold make_dict
  rw [List.map_take]

lemma make_dict_sorted_desc (tokens noun_list : List String) (i j : Nat)
    (x y : String) (hij : i < j)
    (hi : (make_dict tokens noun_list)[i]? = some x)
    (hjy : (make_dict tokens noun_list)[j]? = some y) :
    List.count y tokens ≤ List.count x tokens := by
  have hout := make_dict_take_map tokens noun_list
  set d := noun_dict tokens noun_list with hdd
  set keys := d.map (fun r => r.1) with hkeys
  set vals := d.map (fun r => r.2) with hvals
  set A := (argsortAsc vals).reverse with hA
  set T := A.take 50 with hT
  rw [hout] at hi hjy
  -- bounds of i and j in T
  rcases List.getElem?_eq_some_iff.mp hi with ⟨hiL, hix⟩
  rcases List.getElem?_eq_some_iff.mp hjy with ⟨hjL, hjx⟩
  have hiT : i < T.length := by simpa using hiL
  have hjT : j < T.length := by simpa using hjL
  -- the two argsort indices
  have hxa : x = keys.getD T[i] "" := by
    rw [← hix, List.getElem_map]
  have hyb : y = keys.getD T[j] "" := by
    rw [← hjx, List.getElem_map]
  -- T is pairwise-descending for argKey and has no duplicates
  have hrev : A.Pairwise (fun u v => argKey vals v u = true) :=
    List.pairwise_reverse.mpr (argsortAsc_sorted vals)
  have hpwT : T.Pairwise (fun u v => argKey vals v u = true) :=
    List.Pairwise.sublist (List.take_sublist 50 A) hrev
  have hrel : argKey vals T[j] T[i] = true :=
    List.pairwise_iff_getElem.mp hpwT i j hiT hjT hij
  -- both indices are in range of the value list
  have hbound : ∀ (m : Nat) (hm : m < T.length), T[m] < vals.length := by
    intro m hm
    have h1 : T[m] ∈ T := List.getElem_mem hm
    have h2 : T[m] ∈ A := List.Sublist.mem h1 (List.take_sublist 50 A)
    exact argsortAsc_mem vals T[m] (List.mem_reverse.mp h2)
  have hav : T[i] < vals.length := hbound i hiT
  have hbv : T[j] < vals.length := hbound j hjT
  have hkl : keys.length = d.length := List.length_map d _
  have hvl : vals.length = d.length := List.length_map d _
  -- value at an argsort index is the count of the key there
  have hval : ∀ (m : Nat) (hm : m < vals.length),
      vals[m] = List.count (keys.getD m "") tokens := by
    intro m hm
    have hmd : m < d.length := hvl ▸ hm
    have h1 : vals[m] = (d.get ⟨m, hmd⟩).2 := by
      have e1 : vals[m]? = some vals[m] := List.getElem?_eq_getElem hm
      have e2 : vals[m]? = some ((d.get ⟨m, hmd⟩).2) := by
        rw [hvals, List.getElem?_map, List.getElem?_eq_getElem hmd,
          List.get_eq_getElem]
        rfl
      exact Option.some.inj (e1.symm.trans e2)
    have h2 : keys.getD m "" = (d.get ⟨m, hmd⟩).1 := by
      rw [List.getD_eq_getElem?_getD, hkeys, List.getElem?_map,
        List.getElem?_eq_getElem hmd, List.get_eq_getElem]
      rfl
    rw [h1, h2]
    exact noun_dict_val_at tokens noun_list m hmd
  -- the pairwise-descending relation gives the value inequality; tie order
  -- between equal values is irrelevant here
  have hgd : ∀ (m : Nat) (hm : m < vals.length), vals.getD m 0 = vals[m] := by
    intro m hm
    rw [List.getD_eq_getElem?_getD, List.getElem?_eq_getElem hm]
    rfl
  have hle : vals[T[j]] ≤ vals[T[i]] := by
    have hrel2 : vals.getD T[j] 0 < vals.getD T[i] 0 ∨
        (vals.getD T[j] 0 = vals.getD T[i] 0 ∧ T[j] ≤ T[i]) := by
      simpa only [argKey, Bool.or_eq_true, Bool.and_eq_true,
        decide_eq_true_eq, beq_iff_eq] using hrel
    rw [hgd T[i] hav, hgd T[j] hbv] at hrel2
    rcases hrel2 with h | ⟨h, _⟩ <;> omega
  rw [hval T[i] hav, hval T[j] hbv, ← hxa, ← hyb] at hle
  exact hle

/-! ## Guess-step inversion lemmas -/

lemma guessStep_reject_eq {s : GameState} {g : String} {s1 : GameState}
    (h : guessStep s g = .reject s1) : s1 = s := by
  simp only [guessStep] at h
  repeat' split at h
  all_goals simp_all

lemma guessStep_step_eq {s : GameState} {g : String} {s1 : GameState}
    (h : guessStep s g = .step s1) :
    s1.word = s.word ∧ s1.guessed = s.guessed ++ [strLower g] ∧
      ((strLower g ∈ s.word ∧ s1.score = s.score + 1 ∧
          s1.hidden = reveal s.word s.hidden (strLower g)) ∨
        (strLower g ∉ s.word ∧ s1.score = s.score - 1 ∧
          s1.hidden = s.hidden)) := by
  simp only [guessStep] at h
  split at h
  · exact absurd h (by simp)
  · split at h
    · exact absurd h (by simp)
    · split at h
      · exact absurd h (by simp)
      · split at h
        · next hmem =>
          cases StepResult.step.inj h
          exact ⟨rfl, rfl, Or.inl ⟨hmem, rfl, rfl⟩⟩
        · next hmem =>
          cases StepResult.step.inj h
          exact ⟨rfl, rfl, Or.inr ⟨hmem, rfl, rfl⟩⟩

/-! ## Round-loop unfolding and score lemmas -/

lemma runRound_stuck {s : GameState} (inputs : List String)
    (h1 : s.hidden ≠ s.word) (h2 : s.score ≤ 0) :
    runRound s inputs = ⟨.exhausted, s, inputs, []⟩ := by
  cases inputs <;> simp [runRound, h1, h2]

lemma runRound_cons_quit {s : GameState} {g : String} (rest : List String)
    (h1 : s.hidden ≠ s.word) (h2 : 0 < s.score)
    (hg : guessStep s g = .quit) :
    runRound s (g :: rest) = ⟨.quitG, s, rest, [g]⟩ := by
  have h2b : ¬ s.score ≤ 0 := by omega
  simp [runRound, h1, h2b, hg]

lemma runRound_cons_reject {s s1 : GameState} {g : String}
    (rest : List String) (h1 : s.hidden ≠ s.word) (h2 : 0 < s.score)
    (hg : guessStep s g = .reject s1) :
    runRound s (g :: rest) =
      ⟨(runRound s1 rest).res, (runRound s1 rest).state,
        (runRound s1 rest).rem, g :: (runRound s1 rest).events⟩ := by
  have h2b : ¬ s.score ≤ 0 := by omega
  simp [runRound, h1, h2b, hg]

lemma runRound_cons_step {s s1 : GameState} {g : String}
    (rest : List String) (h1 : s.hidden ≠ s.word) (h2 : 0 < s.score)
    (hg : guessStep s g = .step s1) :
    runRound s (g :: rest) =
      ⟨(runRound s1 rest).res, (runRound s1 rest).state,
        (runRound s1 rest).rem, g :: (runRound s1 rest).events⟩ := by
  have h2b : ¬ s.score ≤ 0 := by omega
  simp [runRound, h1, h2b, hg]

lemma runRound_res_exhausted_score (s : GameState) (inputs : List String)
    (h : (runRound s inputs).res = .exhausted) :
    (runRound s inputs).state.score ≤ 0 := by
  induction inputs generalizing s with
  | nil =>
    by_cases h1 : s.hidden = s.word
    · simp [runRound, h1] at h
    · by_cases h2 : s.score ≤ 0
      · rw [runRound_stuck [] h1 h2]
        exact h2
      · simp [runRound, h1, h2] at h
  | cons g rest ih =>
    by_cases h1 : s.hidden = s.word
    · simp [runRound, h1] at h
    · by_cases h2 : s.score ≤ 0
      · rw [runRound_stuck (g :: rest) h1 h2] at h ⊢
        exact h2
      · have h2b : 0 < s.score := by omega
        cases hg : guessStep s g with
        | quit => rw [runRound_cons_quit rest h1 h2b hg] at h; simp at h
        | reject s1 =>
          rw [runRound_cons_reject rest h1 h2b hg] at h ⊢
          exact ih s1 h
        | step s1 =>
          rw [runRound_cons_step rest h1 h2b hg] at h ⊢
          exact ih s1 h

lemma runRound_score_pos (s : GameState) (inputs : List String)
    (hs : 0 < s.score) (h : (runRound s inputs).res ≠ .exhausted) :
    0 < (runRound s inputs).state.score := by
  induction inputs generalizing s with
  | nil =>
    by_cases h1 : s.hidden = s.word
    · simpa [runRound, h1] using hs
    · have h2 : ¬ s.score ≤ 0 := by omega
      simpa [runRound, h1, h2] using hs
  | cons g rest ih =>
    by_cases h1 : s.hidden = s.word
    · simpa [runRound, h1] using hs
    · have h2 : ¬ s.score ≤ 0 := by omega
      cases hg : guessStep s g with
      | quit =>
        rw [runRound_cons_quit rest h1 hs hg]
        exact hs
      | reject s1 =>
        rw [runRound_cons_reject rest h1 hs hg] at h ⊢
        have hs1 : s1 = s := guessStep_reject_eq hg
        exact ih s1 (hs1 ▸ hs) h
      | step s1 =>
        rw [runRound_cons_step rest h1 hs hg] at h ⊢
        rcases guessStep_step_eq hg with ⟨hw, _, hcase | hcase⟩
        · exact ih s1 (by rw [hcase.2.1]; omega) h
        · rcases hcase with ⟨_, hscore, hhid⟩
          by_cases hpos : 0 < s1.score
          · exact ih s1 hpos h
          · exfalso
            apply h
            rw [runRound_stuck rest (by rw [hhid, hw]; exact h1) (by omega)]

/-! ## Mask lemmas -/

lemma reveal_length (word hidden : List String) (gl : String)
    (h : hidden.length = word.length) :
    (reveal word hidden gl).length = hidden.length := by
  simp only [reveal, List.length_zipWith]
  omega

lemma getElem?_reveal_word {word hidden : List String} {gl : String}
    {i : Nat} (hlen : hidden.length = word.length)
    (hw : word[i]? = some gl) :
    (reveal word hidden gl)[i]? = some gl := by
  rcases List.getElem?_eq_some_iff.mp hw with ⟨hi, hwi⟩
  have hh : i < hidden.length := by omega
  rw [reveal, List.getElem?_zipWith, hw, List.getElem?_eq_getElem hh]
  simp

lemma getElem?_reveal_preserve {word hidden : List String} {gl x : String}
    {i : Nat} (hw : word[i]? = some x) (hh : hidden[i]? = some x) :
    (reveal word hidden gl)[i]? = some x := by
  rw [reveal, List.getElem?_zipWith, hw, hh]
  by_cases hx : x = gl
  · subst hx; simp
  · simp [hx]

lemma getElem?_reveal_inv {word hidden : List String} {gl x : String}
    {i : Nat} (hx : (reveal word hidden gl)[i]? = some x)
    (hinv : ∀ y, hidden[i]? = some y → y ≠ "_ " → word[i]? = some y)
    (hne : x ≠ "_ ") : word[i]? = some x := by
  rw [reveal, List.getElem?_zipWith] at hx
  cases hwv : word[i]? with
  | none => rw [hwv] at hx; simp at hx
  | some wv =>
    cases hhv : hidden[i]? with
    | none => rw [hwv, hhv] at hx; simp at hx
    | some hv =>
      rw [hwv, hhv] at hx
      have hx2 : (if wv == gl then gl else hv) = x := by simpa using hx
      by_cases hwg : wv = gl
      · rw [if_pos (by simp [hwg])] at hx2
        rw [hwg, hx2]
      · rw [if_neg (by simp [hwg])] at hx2
        have h3 := hinv hv hhv (by rw [hx2]; exact hne)
        have h4 : wv = hv := Option.some.inj (hwv.symm.trans h3)
        rw [h4, hx2]

lemma maskInv_initRound (w : String) (sc : Int) :
    MaskInv (initRound w sc) := by
  constructor
  · simp [initRound]
  · intro i x hx hne
    exfalso
    apply hne
    simp only [initRound, List.getElem?_map] at hx
    cases h : (wordLetters w)[i]? with
    | none => rw [h] at hx; simp at hx
    | some c =>
      rw [h] at hx
      simp at hx
      exact hx.symm

lemma maskInv_step {s u : GameState} {g : String}
    (hg : guessStep s g = .step u) (hs : MaskInv s) :
    MaskInv u ∧ ∀ (i : Nat) (x : String),
      s.hidden[i]? = some x → x ≠ "_ " → u.hidden[i]? = some x := by
  rcases guessStep_step_eq hg with ⟨hw, _, hcase | hcase⟩
  · rcases hcase with ⟨_, _, hhid⟩
    refine ⟨⟨?_, ?_⟩, ?_⟩
    · rw [hhid, hw, reveal_length _ _ _ hs.1, hs.1]
    · intro i x hx hne
      rw [hhid] at hx
      rw [hw]
      exact getElem?_reveal_inv hx (fun y hy hyne => hs.2 i y hy hyne) hne
    · intro i x hx hne
      rw [hhid]
      exact getElem?_reveal_preserve (hs.2 i x hx hne) hx
  · rcases hcase with ⟨_, _, hhid⟩
    exact ⟨⟨by rw [hhid, hw]; exact hs.1, by rw [hhid, hw]; exact hs.2⟩,
      fun i x hx _ => by rw [hhid]; exact hx⟩

lemma steps_maskInv {s t : GameState} (h : Steps s t) (hs : MaskInv s) :
    MaskInv t ∧ ∀ (i : Nat) (x : String),
      s.hidden[i]? = some x → x ≠ "_ " → t.hidden[i]? = some x := by
  induction h with
  | refl => exact ⟨hs, fun i x hx _ => hx⟩
  | tail g hst hneq hpos hg ih =>
    rcases ih with ⟨hinvT, hpres⟩
    rcases maskInv_step hg hinvT with ⟨hinvU, hpresU⟩
    exact ⟨hinvU, fun i x hx hxne => hpresU i x (hpres i x hx hxne) hxne⟩

lemma steps_solved_score {w : String} {sc : Int} {s : GameState}
    (hsc : 1 ≤ sc) (h : Steps (initRound w sc) s)
    (hsol : s.hidden = s.word) : 1 ≤ s.score := by
  cases h with
  | refl => exact hsc
  | tail g hst hneq hpos hg =>
    rcases guessStep_step_eq hg with ⟨hw, _, hcase | hcase⟩
    · rw [hcase.2.1]
      omega
    · rcases hcase with ⟨_, _, hhid⟩
      rw [hhid, hw] at hsol
      exact absurd hsol hneq

/-! ## Event-trace scanner lemmas -/

lemma exhaustedEnds_cons_prompt (g : String) (l : List Event) :
    exhaustedEnds (.guessPrompt g :: l) = exhaustedEnds l := rfl

lemma exhaustedEnds_cons_solved (l : List Event) :
    exhaustedEnds (.roundSolved :: l) = exhaustedEnds l := rfl

lemma exhaustedEnds_cons_cont (l : List Event) :
    exhaustedEnds (.contPrompt :: l) = exhaustedEnds l := rfl

lemma exhaustedEnds_cons_farewell (l : List Event) :
    exhaustedEnds (.farewell :: l) = exhaustedEnds l := rfl

lemma exhaustedEnds_prompts (gs : List String) (l : List Event) :
    exhaustedEnds (gs.map (fun g => Event.guessPrompt g) ++ l) =
      exhaustedEnds l := by
  induction gs with
  | nil => rfl
  | cons g rest ih =>
    rw [List.map_cons, List.cons_append, exhaustedEnds_cons_prompt]
    exact ih

lemma exhaustedEnds_prompts_nil (gs : List String) :
    exhaustedEnds (gs.map (fun g => Event.guessPrompt g)) = true := by
  have h := exhaustedEnds_prompts gs []
  rw [List.append_nil] at h
  rw [h]
  rfl

lemma solvedThenCont_cons_prompt (g : String) (l : List Event) :
    solvedThenCont (.guessPrompt g :: l) = solvedThenCont l := rfl

lemma solvedThenCont_cons_exhausted (l : List Event) :
    solvedThenCont (.roundExhausted :: l) = solvedThenCont l := rfl

lemma solvedThenCont_cons_cont (l : List Event) :
    solvedThenCont (.contPrompt :: l) = solvedThenCont l := rfl

lemma solvedThenCont_cons_farewell (l : List Event) :
    solvedThenCont (.farewell :: l) = solvedThenCont l := rfl

lemma solvedThenCont_solved_cont (l : List Event) :
    solvedThenCont (.roundSolved :: .contPrompt :: l) = solvedThenCont l :=
  rfl

lemma solvedThenCont_prompts (gs : List String) (l : List Event) :
    solvedThenCont (gs.map (fun g => Event.guessPrompt g) ++ l) =
      solvedThenCont l := by
  induction gs with
  | nil => rfl
  | cons g rest ih =>
    rw [List.map_cons, List.cons_append, solvedThenCont_cons_prompt]
    exact ih

lemma solvedThenCont_prompts_nil (gs : List String) :
    solvedThenCont (gs.map (fun g => Event.guessPrompt g)) = true := by
  have h := solvedThenCont_prompts gs []
  rw [List.append_nil] at h
  rw [h]
  rfl

lemma eventsOf_prependEvents (es : List Event) (o : SessionOut) :
    eventsOf (prependEvents es o) = es ++ eventsOf o := by
  cases o <;> rfl

/-! ## Session-loop unfolding lemmas -/

lemma runSession_nil (vocab : List String) (inputs : List String)
    (score : Int) :
    runSession vocab [] inputs score =
      if score ≤ 0 then .ok [.farewell] score else .noMorePicks [] := rfl

lemma runSession_cons_stop {vocab : List String} {k : Nat} {ks : List Nat}
    {inputs : List String} {score : Int} (h : score ≤ 0) :
    runSession vocab (k :: ks) inputs score = .ok [.farewell] score := by
  simp [runSession, h]

lemma runSession_cons_none {vocab : List String} {k : Nat} {ks : List Nat}
    {inputs : List String} {score : Int} (h : ¬ score ≤ 0)
    (hrc : randomChoice vocab k = none) :
    runSession vocab (k :: ks) inputs score = .configError [] := by
  simp [runSession, h, hrc]

lemma runSession_cons_some {vocab : List String} {k : Nat} {ks : List Nat}
    {inputs : List String} {score : Int} {w : String} (h : ¬ score ≤ 0)
    (hrc : randomChoice vocab k = some w) :
    runSession vocab (k :: ks) inputs score =
      postRound vocab ks (runRound (initRound w score) inputs) := by
  simp [runSession, postRound, h, hrc]

lemma session_exhaustedEnds (vocab : List String) (picks : List Nat)
    (inputs : List String) (score : Int) :
    exhaustedEnds (eventsOf (runSession vocab picks inputs score)) = true := by
  induction picks generalizing inputs score with
  | nil =>
    rw [runSession_nil]
    by_cases h : score ≤ 0
    · rw [if_pos h]; rfl
    · rw [if_neg h]; rfl
  | cons k ks ih =>
    by_cases h : score ≤ 0
    · rw [runSession_cons_stop h]; rfl
    · cases hrc : randomChoice vocab k with
      | none => rw [runSession_cons_none h hrc]; rfl
      | some w =>
        rw [runSession_cons_some h hrc]
        generalize hR : runRound (initRound w score) inputs = rr
        have hexh : rr.res = .exhausted → rr.state.score ≤ 0 := by
          intro hx
          rw [← hR] at hx ⊢
          exact runRound_res_exhausted_score _ _ hx
        cases hres : rr.res with
        | quitG =>
          simp [postRound, hres, eventsOf, roundEvents,
            exhaustedEnds_prompts, exhaustedEnds]
        | noInput =>
          simp [postRound, hres, eventsOf, roundEvents,
            exhaustedEnds_prompts, exhaustedEnds_prompts_nil, exhaustedEnds]
        | solved =>
          by_cases hsc : rr.state.score ≤ 0
          · simp [postRound, hres, hsc, eventsOf, roundEvents,
              exhaustedEnds_prompts, exhaustedEnds_cons_solved,
              exhaustedEnds_cons_farewell, exhaustedEnds]
          · cases hrem : rr.rem with
            | nil =>
              simp [postRound, hres, hsc, hrem, eventsOf, roundEvents,
                exhaustedEnds_prompts, exhaustedEnds_cons_solved,
                exhaustedEnds_cons_cont, exhaustedEnds]
            | cons a rest =>
              by_cases hy : (strLower a == "y") = true
              · simp only [postRound, hres, hrem, hy,
                  eventsOf_prependEvents, if_neg hsc, if_true,
                  List.append_assoc, List.cons_append, List.nil_append,
                  List.singleton_append, roundEvents]
                rw [exhaustedEnds_prompts]
                rw [exhaustedEnds_cons_solved, exhaustedEnds_cons_cont]
                exact ih rest rr.state.score
              · simp [postRound, hres, hsc, hrem, hy, eventsOf, roundEvents,
                  exhaustedEnds_prompts, exhaustedEnds_cons_solved,
                  exhaustedEnds_cons_cont, exhaustedEnds_cons_farewell,
                  exhaustedEnds]
        | exhausted =>
          have hsc : rr.state.score ≤ 0 := hexh hres
          simp [postRound, hres, hsc, eventsOf, roundEvents,
            exhaustedEnds_prompts, exhaustedEnds]

lemma session_solvedThenCont (vocab : List String) (picks : List Nat)
    (inputs : List String) (score : Int) :
    solvedThenCont (eventsOf (runSession vocab picks inputs score)) = true := by
  induction picks generalizing inputs score with
  | nil =>
    rw [runSession_nil]
    by_cases h : score ≤ 0
    · rw [if_pos h]; rfl
    · rw [if_neg h]; rfl
  | cons k ks ih =>
    by_cases h : score ≤ 0
    · rw [runSession_cons_stop h]; rfl
    · cases hrc : randomChoice vocab k with
      | none => rw [runSession_cons_none h hrc]; rfl
      | some w =>
        rw [runSession_cons_some h hrc]
        generalize hR : runRound (initRound w score) inputs = rr
        have hini : 0 < (initRound w score).score := by
          simp only [initRound]
          omega
        cases hres : rr.res with
        | quitG =>
          simp [postRound, hres, eventsOf, roundEvents,
            solvedThenCont_prompts, solvedThenCont]
        | noInput =>
          simp [postRound, hres, eventsOf, roundEvents,
            solvedThenCont_prompts, solvedThenCont_prompts_nil,
            solvedThenCont]
        | solved =>
          have hpos : 0 < rr.state.score := by
            rw [← hR]
            apply runRound_score_pos _ _ hini
            rw [hR, hres]
            simp
          have hsc : ¬ rr.state.score ≤ 0 := by omega
          cases hrem : rr.rem with
          | nil =>
            simp only [postRound, hres, hrem, if_neg hsc, eventsOf,
              List.append_assoc, List.cons_append, List.nil_append,
              List.singleton_append, roundEvents]
            rw [solvedThenCont_prompts, solvedThenCont_solved_cont]
            rfl
          | cons a rest =>
            by_cases hy : (strLower a == "y") = true
            · simp only [postRound, hres, hrem, hy, if_neg hsc, if_true,
                eventsOf_prependEvents, List.append_assoc, List.cons_append,
                List.nil_append, List.singleton_append, roundEvents]
              rw [solvedThenCont_prompts, solvedThenCont_solved_cont]
              exact ih rest rr.state.score
            · simp only [postRound, hres, hrem, hy, if_neg hsc, if_false,
                Bool.false_eq_true, eventsOf, List.append_assoc,
                List.cons_append, List.nil_append, List.singleton_append,
                roundEvents]
              rw [solvedThenCont_prompts, solvedThenCont_solved_cont]
              rfl
        | exhausted =>
          by_cases hsc : rr.state.score ≤ 0
          · simp [postRound, hres, hsc, eventsOf, roundEvents,
              solvedThenCont_prompts, solvedThenCont]
          · cases hrem : rr.rem with
            | nil =>
              simp [postRound, hres, hsc, hrem, eventsOf, roundEvents,
                solvedThenCont_prompts, solvedThenCont]
            | cons a rest =>
              by_cases hy : (strLower a == "y") = true
              · simp only [postRound, hres, hrem, hy, if_neg hsc, if_true,
                  eventsOf_prependEvents, List.append_assoc,
                  List.cons_append, List.nil_append, List.singleton_append,
                  roundEvents]
                rw [solvedThenCont_prompts, solvedThenCont_cons_exhausted,
                  solvedThenCont_cons_cont]
                exact ih rest rr.state.score
              · simp [postRound, hres, hsc, hrem, hy, eventsOf, roundEvents,
                  solvedThenCont_prompts, solvedThenCont]

/-! ## Claim theorems -/

/-- Claim C1, counterexample: with secret word "garden" and initial score 5,
the scripted guesses g,a,x,r,d,e,n do solve the round, but the final score
is 10, not 9 as the claimed score path 5→6→6→5→6→7→8→9 states — the hit on
"a" also increments the score, so the claimed path is off by one from the
second guess on. -/
theorem C1_scenarioA_counterexample :
    (runRound (initRound "garden" 5) ["g", "a", "x", "r", "d", "e", "n"]).res
        = RoundRes.solved ∧
    (runRound (initRound "garden" 5)
        ["g", "a", "x", "r", "d", "e", "n"]).state.score = 10 ∧
    ¬ ((runRound (initRound "garden" 5)
        ["g", "a", "x", "r", "d", "e", "n"]).state.score = 9) := by
  decide

/-- Claim C1, amended: when a new single alphabetic letter is accepted, a
letter occurring in the lower-cased secret word reveals every matching mask
position and increments the score by 1, otherwise the score decrements by 1
and the mask is unchanged; for secret word "garden" at score 5 the guess
sequence g,a,x,r,d,e,n yields the score path 5→6→7→6→7→8→9→10 and the round
ends Solved at score 10. -/
theorem C1_guess_scoring_amended :
    (∀ (s s1 : GameState) (g : String),
      guessStep s g = .step s1 →
      ((strLower g ∈ s.word →
          s1.score = s.score + 1 ∧
          ∀ (i : Nat), s.hidden.length = s.word.length →
            s.word[i]? = some (strLower g) →
            s1.hidden[i]? = some (strLower g)) ∧
        (strLower g ∉ s.word →
          s1.score = s.score - 1 ∧ s1.hidden = s.hidden))) ∧
    scorePath (initRound "garden" 5) ["g", "a", "x", "r", "d", "e", "n"] =
      [5, 6, 7, 6, 7, 8, 9, 10] ∧
    (runRound (initRound "garden" 5) ["g", "a", "x", "r", "d", "e", "n"]).res
      = RoundRes.solved ∧
    (runRound (initRound "garden" 5)
      ["g", "a", "x", "r", "d", "e", "n"]).state.score = 10 := by
  refine ⟨?_, by decide, by decide, by decide⟩
  intro s s1 g hg
  rcases guessStep_step_eq hg with ⟨hw, _, hcase | hcase⟩
  · rcases hcase with ⟨hmem, hscore, hhid⟩
    constructor
    · intro _
      refine ⟨hscore, ?_⟩
      intro i hlen hwi
      rw [hhid]
      exact getElem?_reveal_word hlen hwi
    · intro hnmem
      exact absurd hmem hnmem
  · rcases hcase with ⟨hnmem, hscore, hhid⟩
    constructor
    · intro hmem
      exact absurd hmem hnmem
    · intro _
      exact ⟨hscore, hhid⟩

/-- Witness for C1: the first Scenario-A guess "g" is a hit on "garden" —
the amended scoring rule applied at that concrete step increments the score
and reveals position 0. -/
theorem C1_guess_scoring_amended_witness :
    (applyGuess (initRound "garden" 5) "g").score =
        (initRound "garden" 5).score + 1 ∧
    (applyGuess (initRound "garden" 5) "g").hidden[0]? =
      some (strLower "g") := by
  have h := (C1_guess_scoring_amended.1 (initRound "garden" 5)
    (applyGuess (initRound "garden" 5) "g") "g" (by decide)).1 (by decide)
  exact ⟨h.1, h.2 0 (by decide) (by decide)⟩

/-- Claim C2, confirmed: in every session trace a round that ends exhausted
is followed by nothing but the final farewell (no guess prompt and no
continuation prompt), and a guess that brings the score to zero ends the
round as Exhausted at once, consuming no further input. -/
theorem C2_score_floor :
    (∀ (vocab : List String) (picks : List Nat) (inputs : List String)
        (score : Int),
      exhaustedEnds (eventsOf (runSession vocab picks inputs score)) = true) ∧
    (∀ (s s1 : GameState) (g : String) (rest : List String),
      s.hidden ≠ s.word → 0 < s.score → guessStep s g = .step s1 →
      s1.score ≤ 0 →
      runRound s (g :: rest) = ⟨.exhausted, s1, rest, [g]⟩) := by
  refine ⟨session_exhaustedEnds, ?_⟩
  intro s s1 g rest hne hpos hg hs1
  rcases guessStep_step_eq hg with ⟨hw, _, hcase | hcase⟩
  · rcases hcase with ⟨_, hscore, _⟩
    omega
  · rcases hcase with ⟨_, _, hhid⟩
    rw [runRound_cons_step rest hne hpos hg,
      runRound_stuck rest (by rw [hhid, hw]; exact hne) hs1]

/-- Witness for C2: Scenario B — word "forest" at score 1, the miss "q"
drops the score to 0 and the round ends Exhausted immediately with no
further input consumed. -/
theorem C2_score_floor_witness :
    runRound (initRound "forest" 1) ["q"] =
      ⟨.exhausted,
        { word := ["f", "o", "r", "e", "s", "t"], guessed := ["q"],
          hidden := ["_ ", "_ ", "_ ", "_ ", "_ ", "_ "], score := 0 },
        [], ["q"]⟩ :=
  C2_score_floor.2 (initRound "forest" 1)
    { word := ["f", "o", "r", "e", "s", "t"], guessed := ["q"],
      hidden := ["_ ", "_ ", "_ ", "_ ", "_ ", "_ "], score := 0 }
    "q" [] (by decide) (by decide) (by decide) (by decide)

/-- Claim C3, confirmed: the Frequency Ranker is a pure function of the
filtered token stream and the noun list — two runs on equal inputs produce
equal ranked outputs (no unordered-iteration nondeterminism exists in the
model: the dict is insertion-ordered and the argsort is deterministic). -/
theorem C3_ranking_deterministic (t1 t2 n1 n2 : List String)
    (ht : t1 = t2) (hn : n1 = n2) : make_dict t1 n1 = make_dict t2 n2 := by
  rw [ht, hn]

/-- Witness for C3: two runs of the ranker on the P3 example coincide. -/
theorem C3_ranking_deterministic_witness :
    make_dict ["cat", "dog", "cat", "bird", "cat"] ["cat", "dog"] =
      make_dict ["cat", "dog", "cat", "bird", "cat"] ["cat", "dog"] :=
  C3_ranking_deterministic ["cat", "dog", "cat", "bird", "cat"]
    ["cat", "dog", "cat", "bird", "cat"] ["cat", "dog"] ["cat", "dog"]
    rfl rfl

/-- Claim C4, counterexample: with noun list [cat, dog] and an empty token
stream both counts are 0 (a tie), yet the ranked output is [dog, cat] —
"dog" (inserted at position 1) precedes "cat" (inserted at position 0), so
the tie is NOT in original insertion order: the claim would require the
insertion position of the first output element to be the smaller one,
i.e. 1 < 0. -/
theorem C4_tie_order_counterexample :
    make_dict [] ["cat", "dog"] = ["dog", "cat"] ∧
    List.count "dog" ([] : List String) =
      List.count "cat" ([] : List String) ∧
    (dictKeys ["cat", "dog"])[0]? = some "cat" ∧
    (dictKeys ["cat", "dog"])[1]? = some "dog" ∧
    ¬ (1 < 0) := by
  decide

/-- Claim C4, amended: the ranker sorts the keys by descending count, and
for a fixed token stream and noun list the whole output — tie order
included — is deterministic; but ties among equal counts are NOT in
original insertion order: the code reverses an ascending argsort, and on
the concrete two-noun tie (where NumPy itself runs its stable small-array
insertion sort) the equal-count keys come out in reverse insertion order.
No tie-order law is asserted for larger inputs, where NumPy's default sort
is documented unstable and the order of equal values is
implementation-defined. -/
theorem C4_tie_order_amended :
    (∀ (tokens noun_list : List String) (i j : Nat) (x y : String),
      i < j → (make_dict tokens noun_list)[i]? = some x →
      (make_dict tokens noun_list)[j]? = some y →
      List.count y tokens ≤ List.count x tokens) ∧
    (∀ t1 t2 n1 n2 : List String, t1 = t2 → n1 = n2 →
      make_dict t1 n1 = make_dict t2 n2) ∧
    make_dict [] ["cat", "dog"] = ["dog", "cat"] ∧
    List.count "dog" ([] : List String) =
      List.count "cat" ([] : List String) ∧
    (dictKeys ["cat", "dog"])[0]? = some "cat" ∧
    (dictKeys ["cat", "dog"])[1]? = some "dog" := by
  refine ⟨?_, ?_, by decide, by decide, by decide, by decide⟩
  · intro tokens noun_list i j x y hij hi hj
    exact make_dict_sorted_desc tokens noun_list i j x y hij hi hj
  · intro t1 t2 n1 n2 ht hn
    rw [ht, hn]

/-- Witness for C4: the descending-count law applied at the P3 example —
"dog" (count 1) is ranked after "cat" (count 3). -/
theorem C4_tie_order_amended_witness :
    List.count "dog" ["cat", "dog", "cat", "bird", "cat"] ≤
      List.count "cat" ["cat", "dog", "cat", "bird", "cat"] :=
  C4_tie_order_amended.1 ["cat", "dog", "cat", "bird", "cat"]
    ["cat", "dog"] 0 1 "cat" "dog" (by decide) (by decide) (by decide)

/-- Claim C5, confirmed: every key of the noun dictionary is counted as the
number of verbatim occurrences of that exact string in the filtered token
stream; a key that never occurs verbatim gets count 0; on the P3 example
the counts are cat = 3, dog = 1 and the ranking is [cat, dog]. -/
theorem C5_count_correctness :
    (∀ (tokens noun_list : List String) (k : String),
      k ∈ dictKeys noun_list →
      dlookup (noun_dict tokens noun_list) k = some (List.count k tokens)) ∧
    (∀ (tokens noun_list : List String) (k : String),
      k ∈ dictKeys noun_list → k ∉ tokens →
      dlookup (noun_dict tokens noun_list) k = some 0) ∧
    make_dict ["cat", "dog", "cat", "bird", "cat"] ["cat", "dog"] =
      ["cat", "dog"] ∧
    dlookup (noun_dict ["cat", "dog", "cat", "bird", "cat"] ["cat", "dog"])
      "cat" = some 3 ∧
    dlookup (noun_dict ["cat", "dog", "cat", "bird", "cat"] ["cat", "dog"])
      "dog" = some 1 := by
  refine ⟨fun t n k hk => dlookup_noun_dict t n k hk, ?_, by decide,
    by decide, by decide⟩
  intro t n k hk hnk
  rw [dlookup_noun_dict t n k hk, List.count_eq_zero.mpr hnk]

/-- Witness for C5: the count-correctness rule applied at the P3 example. -/
theorem C5_count_correctness_witness :
    dlookup (noun_dict ["cat", "dog", "cat", "bird", "cat"] ["cat", "dog"])
      "cat" = some (List.count "cat" ["cat", "dog", "cat", "bird", "cat"]) :=
  C5_count_correctness.1 ["cat", "dog", "cat", "bird", "cat"]
    ["cat", "dog"] "cat" (by decide)

/-- Claim C6: the spec requires the first-20 report to print
min(20, length) entries and never read past the end, but the code's loop
`for i in range(20)` reads 20 entries unconditionally — on a single-entry
tagged list the access at index 1 is out of range, so the loop raises
IndexError (modelled as `none`) instead of reporting the one existing
entry. -/
theorem C6_first20_out_of_range :
    printFirst20 [("garden", "NN")] = none := by
  decide

/-- Claim C7, confirmed: a malformed guess (not exactly one alphabetic
character after lowering) or a repeat of an already-guessed letter is
rejected: the state is returned untouched and the loop re-prompts on the
remaining input. -/
theorem C7_invalid_guess_noop (s : GameState) (g : String)
    (rest : List String) (hact : s.hidden ≠ s.word) (hsc : 0 < s.score)
    (hnq : strLower g ≠ "!")
    (hbad : (strLower g).data.length ≠ 1 ∨ ¬ pyIsAlpha (strLower g) ∨
      strLower g ∈ s.guessed) :
    guessStep s g = .reject s ∧
    runRound s (g :: rest) =
      ⟨(runRound s rest).res, (runRound s rest).state,
        (runRound s rest).rem, g :: (runRound s rest).events⟩ := by
  have hrej : guessStep s g = .reject s := by
    simp only [guessStep]
    rw [if_neg (by simpa using hnq)]
    rcases hbad with h | h | h
    · rw [if_pos (by simp [Bool.or_eq_true, bne_iff_ne]; exact Or.inl h)]
    · have halpha : pyIsAlpha (strLower g) = false := by
        cases hx : pyIsAlpha (strLower g)
        · rfl
        · exact absurd hx h
      rw [if_pos (by simp [halpha])]
    · by_cases hb : ((strLower g).data.length != 1 ||
          !pyIsAlpha (strLower g)) = true
      · rw [if_pos hb]
      · rw [if_neg hb, if_pos h]
  exact ⟨hrej, by rw [runRound_cons_reject rest hact hsc hrej]⟩

/-- Witness for C7: the malformed two-character guess "xy" in a fresh
"garden" round is rejected with the state unchanged. -/
theorem C7_invalid_guess_noop_witness :
    guessStep (initRound "garden" 5) "xy" =
      .reject (initRound "garden" 5) :=
  (C7_invalid_guess_noop (initRound "garden" 5) "xy" [] (by decide)
    (by decide) (by decide) (Or.inl (by decide))).1

/-- Claim C8, confirmed: at every state reachable inside a round the mask
has exactly the secret word's length, and a revealed position keeps its
revealed letter (is never re-hidden) in every later reachable state. -/
theorem C8_mask_invariant (w : String) (sc : Int) (s t : GameState)
    (h1 : Steps (initRound w sc) s) (h2 : Steps s t) :
    s.hidden.length = s.word.length ∧
    t.hidden.length = t.word.length ∧
    ∀ (i : Nat) (x : String), s.hidden[i]? = some x → x ≠ "_ " →
      t.hidden[i]? = some x := by
  have hs := steps_maskInv h1 (maskInv_initRound w sc)
  have ht := steps_maskInv h2 hs.1
  exact ⟨hs.1.1, ht.1.1, ht.2⟩

/-- Witness for C8: the invariant at the start of a fresh "garden" round. -/
theorem C8_mask_invariant_witness :
    (initRound "garden" 5).hidden.length =
      (initRound "garden" 5).word.length :=
  (C8_mask_invariant "garden" 5 (initRound "garden" 5)
    (initRound "garden" 5) (Steps.refl _) (Steps.refl _)).1

/-- Claim C9, confirmed: an empty noun list ranks to an empty vocabulary,
and a session over an empty vocabulary aborts at the very first word pick
(the IndexError of `random.choice` on an empty sequence) before any guess
prompt is issued: the outcome is a configuration error with an empty event
trace. -/
theorem C9_empty_vocab_fatal :
    (∀ tokens : List String, make_dict tokens [] = []) ∧
    (∀ (k : Nat) (ks : List Nat) (inputs : List String),
      guessing_game [] (k :: ks) inputs = .configError []) := by
  constructor
  · intro tokens
    have hfold : ∀ ts : List String, ts.foldl bump [] = [] := by
      intro ts
      induction ts with
      | nil => rfl
      | cons t ts ih => simpa [bump] using ih
    simp only [make_dict, noun_dict]
    rw [show seed [] = [] from rfl, hfold]
    rfl
  · intro k ks inputs
    unfold guessing_game
    rw [runSession_cons_none (by omega) (by rfl)]

/-- Claim C10, confirmed: a reachable round state whose mask equals the
word always has score at least 1 (the final reveal is a hit, which
increments a score that was positive when the guess was accepted); in every
session trace a solved round is immediately followed by the continuation
prompt; and Exhausted is the only round outcome whose final score can be
0 — every other outcome leaves the score positive. -/
theorem C10_solved_positive_score :
    (∀ (w : String) (sc : Int) (s : GameState), 1 ≤ sc →
      Steps (initRound w sc) s → s.hidden = s.word → 1 ≤ s.score) ∧
    (∀ (vocab : List String) (picks : List Nat) (inputs : List String)
        (score : Int),
      solvedThenCont (eventsOf (runSession vocab picks inputs score)) =
        true) ∧
    (∀ (s : GameState) (inputs : List String), 0 < s.score →
      (runRound s inputs).res ≠ .exhausted →
      0 < (runRound s inputs).state.score) :=
  ⟨fun _ _ _ hsc h hsol => steps_solved_score hsc h hsol,
    session_solvedThenCont, runRound_score_pos⟩

/-- Witness for C10: the degenerate empty word is solved at round start with
the initial score 5 ≥ 1. -/
theorem C10_solved_positive_score_witness :
    1 ≤ (initRound "" 5).score :=
  C10_solved_positive_score.1 "" 5 (initRound "" 5) (by decide)
    (Steps.refl _) rfl

end WordGuess
